import Mathlib

/-!
Verification of the J-REIT scoring engine (`j_reit_finder/stock_selector.py`).

Numeric column values are modelled as exact rationals (`ℚ`).  The IEEE-754
special values needed to observe the degenerate (`max == min`) normalization
are modelled separately by `PFloat`.  An entity table is a list of `Row`s; a
pandas column is accessed through a projection `Row → ℚ`.
-/

namespace JReitFinder

/-- `ScoringWeights` from `stock_selector.py`, with the source's default
values 0.25, 0.20, 0.15, 0.20, 0.20. -/
structure ScoringWeights where
  distribution_yield : ℚ := 25 / 100
  nav_ratio : ℚ := 20 / 100
  portfolio_quality : ℚ := 15 / 100
  financial_health : ℚ := 20 / 100
  market_position : ℚ := 20 / 100
deriving DecidableEq

/-- One row of the entity table consumed by `JREITSelector` (spec §3).  The
Japanese source column names map to: `distribution_yield` = 分配金利回り,
`nav_ratio` = NAV倍率, `market_cap` = 時価総額(円), `asset_size` = 資産規模(円),
`building_count` = 棟数, `average_building_age` = 平均築年数,
`leverage_ratio` = 有利子負債比率, `roe` = 自己資本利益率（ROE）. -/
structure Row where
  id : String := ""
  name : String := ""
  distribution_yield : ℚ := 0
  nav_ratio : ℚ := 0
  market_cap : ℚ := 0
  asset_size : ℚ := 0
  building_count : ℚ := 0
  average_building_age : ℚ := 0
  leverage_ratio : ℚ := 0
  roe : ℚ := 0
deriving DecidableEq, Inhabited

/-- `Series.min` of a pandas numeric column (0 on an empty column, which the
engine never consults). -/
def listMin : List ℚ → ℚ
  | [] => 0
  | x :: xs => xs.foldl min x

/-- `Series.max` of a pandas numeric column (0 on an empty column). -/
def listMax : List ℚ → ℚ
  | [] => 0
  | x :: xs => xs.foldl max x

/-- `normalize_column` from `stock_selector.py`:
`(df[column] - df[column].min()) / (df[column].max() - df[column].min())`.
As in the source, the `ascending` parameter is accepted (default `True`) but
never read by the body. -/
def normalize_column (df : List Row) (column : Row → ℚ)
    (ascending : Bool := true) : List ℚ :=
  let s := df.map column
  s.map fun v => (v - listMin s) / (listMax s - listMin s)

/-- `calculate_distribution_yield_score`:
`normalize_column(df, '分配金利回り', ascending=False)`. -/
def calculate_distribution_yield_score (df : List Row) : List ℚ :=
  normalize_column df (fun r => r.distribution_yield) false

/-- `calculate_nav_ratio_score`: `1 - abs(nav_ratio - ideal_ratio) / nav_ratio.max()`
with `ideal_ratio = 1.0`. -/
def calculate_nav_ratio_score (df : List Row) : List ℚ :=
  let nav := df.map fun r => r.nav_ratio
  nav.map fun v => 1 - |v - 1| / listMax nav

/-- `calculate_portfolio_quality_score`: mean of `1 - normalize(平均築年数)`
and `normalize(棟数)`. -/
def calculate_portfolio_quality_score (df : List Row) : List ℚ :=
  let age_score := (normalize_column df fun r => r.average_building_age).map fun v => 1 - v
  let building_score := normalize_column df fun r => r.building_count
  List.zipWith (fun a b => (a + b) / 2) age_score building_score

/-- `calculate_financial_health_score`: mean of `1 - normalize(有利子負債比率)`
and `normalize(自己資本利益率（ROE）)`. -/
def calculate_financial_health_score (df : List Row) : List ℚ :=
  let ltv_score := (normalize_column df fun r => r.leverage_ratio).map fun v => 1 - v
  let roe_score := normalize_column df fun r => r.roe
  List.zipWith (fun a b => (a + b) / 2) ltv_score roe_score

/-- `calculate_market_position_score`: mean of `normalize(時価総額(円))` and
`normalize(資産規模(円))`. -/
def calculate_market_position_score (df : List Row) : List ℚ :=
  let market_cap_score := normalize_column df fun r => r.market_cap
  let asset_size_score := normalize_column df fun r => r.asset_size
  List.zipWith (fun a b => (a + b) / 2) market_cap_score asset_size_score

/-- One row of the `scores` DataFrame built inside `select_stocks`: the five
sub-score columns and the composite 総合スコア column. -/
structure RowScores where
  distribution_yield_score : ℚ
  nav_ratio_score : ℚ
  portfolio_quality_score : ℚ
  financial_health_score : ℚ
  market_position_score : ℚ
  total_score : ℚ
deriving DecidableEq, Inhabited

/-- The composite-score formula of `select_stocks` (source lines 71–77): the
weighted sum of the five sub-scores with the stored weights, exactly as
written, with no re-normalization of the weights. -/
def weighted_total (w : ScoringWeights) (d n p f m : ℚ) : ℚ :=
  d * w.distribution_yield + n * w.nav_ratio + p * w.portfolio_quality +
    f * w.financial_health + m * w.market_position

/-- Row-wise view of the `scores` DataFrame of `select_stocks`. -/
def scoreTable (w : ScoringWeights) (df : List Row) : List RowScores :=
  let dy := calculate_distribution_yield_score df
  let nav := calculate_nav_ratio_score df
  let pq := calculate_portfolio_quality_score df
  let fh := calculate_financial_health_score df
  let mp := calculate_market_position_score df
  (List.range df.length).map fun i =>
    ⟨dy.getD i 0, nav.getD i 0, pq.getD i 0, fh.getD i 0, mp.getD i 0,
      weighted_total w (dy.getD i 0) (nav.getD i 0) (pq.getD i 0)
        (fh.getD i 0) (mp.getD i 0)⟩

/-- The comparison key of `sort_values('総合スコア')`: ascending order on the
composite score. -/
def scoreLE (p q : Row × RowScores) : Prop :=
  p.2.total_score ≤ q.2.total_score

instance : DecidableRel scoreLE := fun p q =>
  inferInstanceAs (Decidable (p.2.total_score ≤ q.2.total_score))

instance : IsTotal (Row × RowScores) scoreLE :=
  ⟨fun p q => le_total p.2.total_score q.2.total_score⟩

instance : IsTrans (Row × RowScores) scoreLE :=
  ⟨fun _ _ _ h1 h2 => le_trans h1 h2⟩

/-- `result.sort_values('総合スコア', ascending=False)` on the scored rows.
pandas' `nargsort` obtains the descending order by reversing the keys and row
indices, taking a stable *ascending* argsort, and reversing the resulting
indexer again; on the row list this double reversal is
`((l.reverse).insertionSort scoreLE).reverse`, which orders rows by composite
score descending while keeping rows with equal scores in their original
relative order. -/
def sort_values_desc (l : List (Row × RowScores)) : List (Row × RowScores) :=
  ((l.reverse).insertionSort scoreLE).reverse

/-- `select_stocks` from `stock_selector.py`: attach the five sub-scores and
the composite score to every row, sort by composite score descending
(`sort_values`, see `sort_values_desc`), and keep the first `top_n` rows
(`head`). -/
def select_stocks (w : ScoringWeights) (df : List Row) (top_n : Nat := 5) :
    List (Row × RowScores) :=
  let scored := df.zip (scoreTable w df)
  (sort_values_desc scored).take top_n

/-- An IEEE-754 double as observed by pandas, modelled as an exact rational
(rounding is not modelled) extended with NaN and the signed infinities. -/
inductive PFloat where
  | nan : PFloat
  | posInf : PFloat
  | negInf : PFloat
  | fin : ℚ → PFloat
deriving DecidableEq

/-- Whether an IEEE value is finite (neither NaN nor an infinity). -/
def PFloat.isFinite : PFloat → Bool
  | .fin _ => true
  | _ => false

/-- IEEE-754 division as numpy performs it for `(value - min) / (max - min)`:
NaN propagates, a nonzero finite numerator over zero gives a signed infinity,
and `0.0 / 0.0` is NaN.  Signed zeros are not modelled; they do not arise
here. -/
def PFloat.div : PFloat → PFloat → PFloat
  | .nan, _ => .nan
  | _, .nan => .nan
  | .posInf, .posInf => .nan
  | .posInf, .negInf => .nan
  | .negInf, .posInf => .nan
  | .negInf, .negInf => .nan
  | .posInf, .fin b => if 0 ≤ b then .posInf else .negInf
  | .negInf, .fin b => if 0 ≤ b then .negInf else .posInf
  | .fin _, .posInf => .fin 0
  | .fin _, .negInf => .fin 0
  | .fin a, .fin b =>
      if b = 0 then
        if a = 0 then .nan else if 0 < a then .posInf else .negInf
      else .fin (a / b)

/-- The body of `normalize_column` evaluated the way pandas evaluates it — in
IEEE floating point — so that the `max == min` division by zero is observable:
`(df[column] - df[column].min()) / (df[column].max() - df[column].min())`. -/
def normalize_column_float (df : List Row) (column : Row → ℚ)
    (ascending : Bool := true) : List PFloat :=
  let s := df.map column
  s.map fun v => PFloat.div (.fin (v - listMin s)) (.fin (listMax s - listMin s))

/-- A pandas `DataFrame` object on the Python heap: the entity rows it was
built from plus score columns appended by name.  pandas column assignment
replaces an existing column of the same name and otherwise appends one. -/
structure PDataFrame where
  base : List Row := []
  extra : List (String × List ℚ) := []
deriving DecidableEq, Inhabited

/-- The mutable Python state `select_stocks` runs in: the heap of DataFrame
objects (an id is an index into the heap) and the selector's stored
`self.weights`. -/
structure PyState where
  heap : List PDataFrame := []
  weights : ScoringWeights := {}
deriving DecidableEq

/-- Allocate a fresh DataFrame object; returns the new state and the fresh
id. -/
def PyState.alloc (s : PyState) (d : PDataFrame) : PyState × Nat :=
  ({ s with heap := s.heap ++ [d] }, s.heap.length)

/-- `cols` with column `nm` set to `vals` (replace, or append at the end). -/
def upsertCol (cols : List (String × List ℚ)) (nm : String) (vals : List ℚ) :
    List (String × List ℚ) :=
  if cols.any fun c => c.1 == nm then
    cols.map fun c => if c.1 == nm then (nm, vals) else c
  else cols ++ [(nm, vals)]

/-- Read the column named `nm` ([] if absent, which does not arise). -/
def lookupCol (cols : List (String × List ℚ)) (nm : String) : List ℚ :=
  match cols.find? (fun c => c.1 == nm) with
  | some c => c.2
  | none => []

/-- In-place column assignment `heap[i][nm] = vals`. -/
def PyState.setCol (s : PyState) (i : Nat) (nm : String) (vals : List ℚ) :
    PyState :=
  let d := s.heap.getD i default
  { s with heap := s.heap.set i { d with extra := upsertCol d.extra nm vals } }

/-- Descending argsort of a key column, as pandas `nargsort` computes it for
`ascending=False`: reverse the index array, take the stable ascending argsort
of the correspondingly reversed keys, and reverse the resulting indexer again.
The double reversal keeps indices with equal keys in their original order. -/
def argsortDesc (keys : List ℚ) : List Nat :=
  ((((List.range keys.length).reverse).insertionSort
    fun i j => keys.getD i 0 ≤ keys.getD j 0)).reverse

/-- `d.sort_values(nm, ascending=False).head(top_n)`: the `nargsort`
descending argsort of the key column, truncated, applied as a row selection to
every column, producing a new DataFrame. -/
def sortValuesDescHead (d : PDataFrame) (nm : String) (top_n : Nat) :
    PDataFrame :=
  let keys := lookupCol d.extra nm
  let idx := (argsortDesc keys).take top_n
  { base := idx.map fun i => d.base.getD i default,
    extra := d.extra.map fun c => (c.1, idx.map fun i => c.2.getD i 0) }

/-- Column name 分配金利回りスコア. -/
def colDY : String := "分配金利回りスコア"

/-- Column name NAV倍率スコア. -/
def colNAV : String := "NAV倍率スコア"

/-- Column name ポートフォリオ質スコア. -/
def colPQ : String := "ポートフォリオ質スコア"

/-- Column name 財務健全性スコア. -/
def colFH : String := "財務健全性スコア"

/-- Column name 市場ポジションスコア. -/
def colMP : String := "市場ポジションスコア"

/-- Column name 総合スコア. -/
def colTotal : String := "総合スコア"

/-- Elementwise weighted sum of the five score columns (source lines 71–77). -/
def weightedSumCols (w : ScoringWeights) (d n p f m : List ℚ) : List ℚ :=
  (List.range d.length).map fun i =>
    weighted_total w (d.getD i 0) (n.getD i 0) (p.getD i 0) (f.getD i 0)
      (m.getD i 0)

/-- Statement-by-statement heap model of `select_stocks` (source lines 59–89):
`scores = pd.DataFrame(index=df.index)` allocates a fresh object, each
`scores[...] = ...` and `result[...] = ...` assignment mutates the assigned
object in place, `result = df.copy()` allocates a copy of the input object,
and the final `result.sort_values('総合スコア', ascending=False).head(top_n)`
allocates the returned DataFrame. -/
def select_stocks_st (s : PyState) (dfId : Nat) (top_n : Nat) : PyState × Nat :=
  let df := (s.heap.getD dfId default).base
  let w := s.weights
  let a1 := s.alloc {}
  let scoresId := a1.2
  let s1 := a1.1
  let s2 := s1.setCol scoresId colDY (calculate_distribution_yield_score df)
  let s3 := s2.setCol scoresId colNAV (calculate_nav_ratio_score df)
  let s4 := s3.setCol scoresId colPQ (calculate_portfolio_quality_score df)
  let s5 := s4.setCol scoresId colFH (calculate_financial_health_score df)
  let s6 := s5.setCol scoresId colMP (calculate_market_position_score df)
  let s7 := s6.setCol scoresId colTotal
    (weightedSumCols w
      (lookupCol (s6.heap.getD scoresId default).extra colDY)
      (lookupCol (s6.heap.getD scoresId default).extra colNAV)
      (lookupCol (s6.heap.getD scoresId default).extra colPQ)
      (lookupCol (s6.heap.getD scoresId default).extra colFH)
      (lookupCol (s6.heap.getD scoresId default).extra colMP))
  let a2 := s7.alloc (s7.heap.getD dfId default)
  let resultId := a2.2
  let s8 := a2.1
  let s9 := s8.setCol resultId colTotal
    (lookupCol (s8.heap.getD scoresId default).extra colTotal)
  let s10 := s9.setCol resultId colDY
    (lookupCol (s9.heap.getD scoresId default).extra colDY)
  let s11 := s10.setCol resultId colNAV
    (lookupCol (s10.heap.getD scoresId default).extra colNAV)
  let s12 := s11.setCol resultId colPQ
    (lookupCol (s11.heap.getD scoresId default).extra colPQ)
  let s13 := s12.setCol resultId colFH
    (lookupCol (s12.heap.getD scoresId default).extra colFH)
  let s14 := s13.setCol resultId colMP
    (lookupCol (s13.heap.getD scoresId default).extra colMP)
  s14.alloc (sortValuesDescHead (s14.heap.getD resultId default) colTotal top_n)

/-- Row A of the concrete scenario in spec §8. -/
def rowA : Row :=
  { id := "A", distribution_yield := 5 / 100, nav_ratio := 1,
    market_cap := 100000000000, asset_size := 200000000000,
    building_count := 10, average_building_age := 5,
    leverage_ratio := 40 / 100, roe := 8 / 100 }

/-- Row B of the concrete scenario in spec §8. -/
def rowB : Row :=
  { id := "B", distribution_yield := 3 / 100, nav_ratio := 12 / 10,
    market_cap := 50000000000, asset_size := 100000000000,
    building_count := 5, average_building_age := 15,
    leverage_ratio := 60 / 100, roe := 4 / 100 }

/-- The two-row example table of spec §8. -/
def dfAB : List Row := [rowA, rowB]

/-- A single-row table: every column is degenerate (`max == min`). -/
def dfSingle : List Row := [rowA]

/-- A table whose only NAV ratio is negative (outside the §3 schema, but
accepted by the code): its NAV-ratio score exceeds 1. -/
def dfNegNav : List Row := [{ nav_ratio := -5 }]

/-- A table with small positive NAV ratios: the first row's NAV-ratio score is
below 0. -/
def dfLowNav : List Row := [{ nav_ratio := 1 / 100 }, { nav_ratio := 1 / 2 }]

/-- The default weights (sum to 1). -/
def wDefault : ScoringWeights := {}

/-- Weights that sum to 2, exercising the absence of re-normalization. -/
def wDouble : ScoringWeights := ⟨2 / 5, 2 / 5, 2 / 5, 2 / 5, 2 / 5⟩

/-- The expected score row of `rowA` in `dfAB` under `wDouble`. -/
def sA : RowScores := ⟨1, 1, 1, 1, 1, 2⟩

/-- A Python state holding the example table as heap object 0. -/
def pyS0 : PyState := { heap := [{ base := dfAB }], weights := {} }

/-- The expected score row of `rowB` in `dfAB` under `wDouble`. -/
def sB : RowScores := ⟨0, 5 / 6, 0, 0, 0, 1 / 3⟩

theorem min_foldl_le (xs : List ℚ) (a : ℚ) : xs.foldl min a ≤ a := by
  induction xs generalizing a with
  | nil => exact le_refl a
  | cons y ys ih => exact le_trans (ih (min a y)) (min_le_left a y)

theorem min_foldl_le_mem {x : ℚ} (xs : List ℚ) (a : ℚ) (hx : x ∈ xs) :
    xs.foldl min a ≤ x := by
  induction xs generalizing a with
  | nil => cases hx
  | cons y ys ih =>
    rcases List.mem_cons.mp hx with h | h
    · subst h; exact le_trans (min_foldl_le ys (min a x)) (min_le_right a x)
    · exact ih (min a y) h

theorem le_max_foldl (xs : List ℚ) (a : ℚ) : a ≤ xs.foldl max a := by
  induction xs generalizing a with
  | nil => exact le_refl a
  | cons y ys ih => exact le_trans (le_max_left a y) (ih (max a y))

theorem mem_le_max_foldl {x : ℚ} (xs : List ℚ) (a : ℚ) (hx : x ∈ xs) :
    x ≤ xs.foldl max a := by
  induction xs generalizing a with
  | nil => cases hx
  | cons y ys ih =>
    rcases List.mem_cons.mp hx with h | h
    · subst h; exact le_trans (le_max_right a x) (le_max_foldl ys (max a x))
    · exact ih (max a y) h

theorem listMin_le {l : List ℚ} {x : ℚ} (hx : x ∈ l) : listMin l ≤ x := by
  cases l with
  | nil => cases hx
  | cons y ys =>
    rcases List.mem_cons.mp hx with h | h
    · subst h; exact min_foldl_le ys x
    · exact min_foldl_le_mem ys y h

theorem le_listMax {l : List ℚ} {x : ℚ} (hx : x ∈ l) : x ≤ listMax l := by
  cases l with
  | nil => cases hx
  | cons y ys =>
    rcases List.mem_cons.mp hx with h | h
    · subst h; exact le_max_foldl ys x
    · exact mem_le_max_foldl ys y h

theorem listMin_lt_listMax {l : List ℚ} {a b : ℚ} (ha : a ∈ l) (hb : b ∈ l)
    (hab : a ≠ b) : listMin l < listMax l := by
  rcases lt_or_ge (listMin l) (listMax l) with h | h
  · exact h
  · exfalso
    apply hab
    have ha1 : a = listMin l :=
      le_antisymm (le_trans (le_listMax ha) h) (listMin_le ha)
    have hb1 : b = listMin l :=
      le_antisymm (le_trans (le_listMax hb) h) (listMin_le hb)
    rw [ha1, hb1]

theorem getD_map_lt {α β : Type} (f : α → β) (l : List α) (i : Nat) (dA : α)
    (dB : β) (h : i < l.length) : (l.map f).getD i dB = f (l.getD i dA) := by
  rw [List.getD_eq_getElem?_getD, List.getD_eq_getElem?_getD, List.getElem?_map,
    List.getElem?_eq_getElem h]
  simp

theorem getD_mem {α : Type} (l : List α) (i : Nat) (d : α) (h : i < l.length) :
    l.getD i d ∈ l := by
  have he : l.getD i d = l[i] := by
    simp [List.getD_eq_getElem?_getD, List.getElem?_eq_getElem h]
  rw [he]
  exact List.getElem_mem h

theorem getD_eq_getElem_of_lt {α : Type} (l : List α) (i : Nat) (d : α)
    (h : i < l.length) : l.getD i d = l[i] := by
  simp [List.getD_eq_getElem?_getD, List.getElem?_eq_getElem h]

theorem scoreTable_length (w : ScoringWeights) (df : List Row) :
    (scoreTable w df).length = df.length := by
  simp [scoreTable]

theorem scoreTable_total_eq {w : ScoringWeights} {df : List Row}
    {sc : RowScores} (hs : sc ∈ scoreTable w df) :
    sc.total_score =
      weighted_total w sc.distribution_yield_score sc.nav_ratio_score
        sc.portfolio_quality_score sc.financial_health_score
        sc.market_position_score := by
  simp only [scoreTable, List.mem_map] at hs
  obtain ⟨i, _, rfl⟩ := hs
  rfl

theorem mem_scored_of_mem_select {w : ScoringWeights} {df : List Row}
    {top_n : Nat} {p : Row × RowScores} (hp : p ∈ select_stocks w df top_n) :
    p ∈ df.zip (scoreTable w df) := by
  simp only [select_stocks, sort_values_desc] at hp
  have h2 := List.take_subset top_n _ hp
  rw [List.mem_reverse] at h2
  rw [List.mem_insertionSort scoreLE, List.mem_reverse] at h2
  exact h2

theorem length_sort_values_desc (l : List (Row × RowScores)) :
    (sort_values_desc l).length = l.length := by
  simp only [sort_values_desc]
  rw [List.length_reverse, List.length_insertionSort, List.length_reverse]

theorem length_select_stocks (w : ScoringWeights) (df : List Row)
    (top_n : Nat) :
    (select_stocks w df top_n).length = min top_n df.length := by
  have hzlen : (df.zip (scoreTable w df)).length = df.length := by
    rw [List.length_zip, scoreTable_length, min_self]
  simp only [select_stocks]
  rw [List.length_take, length_sort_values_desc, hzlen]

theorem select_eval_wDouble_dfAB :
    select_stocks wDouble dfAB 5 = [(rowA, sA), (rowB, sB)] := by
  norm_num [select_stocks, sort_values_desc, scoreTable,
    calculate_distribution_yield_score,
    calculate_nav_ratio_score, calculate_portfolio_quality_score,
    calculate_financial_health_score, calculate_market_position_score,
    normalize_column, listMin, listMax, min_def, max_def,
    dfAB, rowA, rowB, wDouble, sA, sB, weighted_total, List.range_succ,
    abs_of_nonneg, abs_of_nonpos, List.insertionSort, List.orderedInsert,
    scoreLE]

/-- C10: the `ascending` parameter of `normalize_column` has no effect on its
result, and the distribution-yield score — which passes `ascending=False` —
still equals the plain ascending normalization. -/
theorem normalize_column_ascending_irrelevant (df : List Row)
    (column : Row → ℚ) (a b : Bool) :
    normalize_column df column a = normalize_column df column b ∧
      calculate_distribution_yield_score df =
        normalize_column df (fun r => r.distribution_yield) true :=
  ⟨rfl, rfl⟩

/-- C8: `select_stocks` on a table with zero rows returns a table with zero
rows, for every weights and every `top_n`, raising no error. -/
theorem select_stocks_empty (w : ScoringWeights) (top_n : Nat) :
    select_stocks w [] top_n = [] := by
  simp [select_stocks, sort_values_desc, scoreTable, List.insertionSort]

/-- C2: on a column with at least two distinct values, `normalize_column`
maps row `i` to `(value - min) / (max - min)` computed over the entire table,
the result lies in `[0, 1]`, a row holding the maximum raw value scores
exactly 1, and a row holding the minimum scores exactly 0. -/
theorem normalize_column_spec (df : List Row) (column : Row → ℚ)
    (ascending : Bool) (a b : ℚ) (ha : a ∈ df.map column)
    (hb : b ∈ df.map column) (hab : a ≠ b) (i : Nat) (hi : i < df.length) :
    (normalize_column df column ascending).getD i 0 =
        (column (df.getD i default) - listMin (df.map column)) /
          (listMax (df.map column) - listMin (df.map column)) ∧
      0 ≤ (normalize_column df column ascending).getD i 0 ∧
      (normalize_column df column ascending).getD i 0 ≤ 1 ∧
      (column (df.getD i default) = listMax (df.map column) →
        (normalize_column df column ascending).getD i 0 = 1) ∧
      (column (df.getD i default) = listMin (df.map column) →
        (normalize_column df column ascending).getD i 0 = 0) := by
  have hm : listMin (df.map column) < listMax (df.map column) :=
    listMin_lt_listMax ha hb hab
  have hden : (0 : ℚ) < listMax (df.map column) - listMin (df.map column) :=
    sub_pos.mpr hm
  have hs : i < (df.map column).length := by simpa using hi
  have hval : (df.map column).getD i 0 = column (df.getD i default) :=
    getD_map_lt column df i default 0 hi
  have hout : (normalize_column df column ascending).getD i 0 =
      (column (df.getD i default) - listMin (df.map column)) /
        (listMax (df.map column) - listMin (df.map column)) := by
    simp only [normalize_column]
    rw [getD_map_lt _ (df.map column) i 0 0 hs, hval]
  have hmem : column (df.getD i default) ∈ df.map column :=
    List.mem_map_of_mem column (getD_mem df i default hi)
  have hlo : listMin (df.map column) ≤ column (df.getD i default) :=
    listMin_le hmem
  have hup : column (df.getD i default) ≤ listMax (df.map column) :=
    le_listMax hmem
  refine ⟨hout, ?_, ?_, ?_, ?_⟩
  · rw [hout]
    exact div_nonneg (sub_nonneg.mpr hlo) (le_of_lt hden)
  · rw [hout, div_le_one hden]
    exact sub_le_sub_right hup _
  · intro hmax
    rw [hout, hmax]
    exact div_self (ne_of_gt hden)
  · intro hmin
    rw [hout, hmin, sub_self, zero_div]

/-- C2 witness: on the two-row example table the distribution-yield column has
two distinct values 5/100 and 3/100, and the normalized value of row 0 lies
in `[0, 1]`. -/
theorem normalize_column_spec_witness :
    0 ≤ (normalize_column dfAB (fun r => r.distribution_yield) false).getD 0 0 ∧
      (normalize_column dfAB (fun r => r.distribution_yield) false).getD 0 0 ≤ 1 := by
  have h := normalize_column_spec dfAB (fun r => r.distribution_yield) false
    (5 / 100) (3 / 100) (by norm_num [dfAB, rowA, rowB])
    (by norm_num [dfAB, rowA, rowB]) (by norm_num) 0 (by norm_num [dfAB])
  exact ⟨h.2.1, h.2.2.1⟩

/-- C3: the NAV-ratio sub-score of every row equals exactly
`1 - |nav_ratio - 1| / max(nav_ratio)` over the table, and the result is not
clamped to `[0, 1]`: on the table `dfNegNav` a row scores above 1 (this
requires an all-negative NAV-ratio column, outside the §3 schema but accepted
by the code) and on `dfLowNav` a row scores below 0. -/
theorem calculate_nav_ratio_score_spec :
    (∀ (df : List Row) (i : Nat), i < df.length →
        (calculate_nav_ratio_score df).getD i 0 =
          1 - |(df.getD i default).nav_ratio - 1| /
              listMax (df.map fun r => r.nav_ratio)) ∧
      1 < (calculate_nav_ratio_score dfNegNav).getD 0 0 ∧
      (calculate_nav_ratio_score dfLowNav).getD 0 0 < 0 := by
  refine ⟨?_, ?_, ?_⟩
  · intro df i hi
    have hs : i < (df.map fun r => r.nav_ratio).length := by simpa using hi
    simp only [calculate_nav_ratio_score]
    rw [getD_map_lt _ (df.map fun r => r.nav_ratio) i 0 0 hs,
      getD_map_lt (fun r => r.nav_ratio) df i default 0 hi]
  · norm_num [calculate_nav_ratio_score, dfNegNav, listMax, abs_of_nonpos]
  · norm_num [calculate_nav_ratio_score, dfLowNav, listMax, max_def,
      abs_of_nonpos]

/-- C3 witness: the formula instantiated on row 0 of the example table. -/
theorem calculate_nav_ratio_score_spec_witness :
    (calculate_nav_ratio_score dfAB).getD 0 0 =
      1 - |(dfAB.getD 0 default).nav_ratio - 1| /
          listMax (dfAB.map fun r => r.nav_ratio) :=
  calculate_nav_ratio_score_spec.1 dfAB 0 (by norm_num [dfAB])

/-- C7: when `max == min` over a column (all rows identical, or a single row),
`normalize_column` raises no exception: `(value - min) / (max - min)` divides
zero by zero in IEEE arithmetic and produces the non-finite value NaN for
every row of the column. -/
theorem normalize_column_degenerate (df : List Row) (column : Row → ℚ)
    (ascending : Bool)
    (h : listMax (df.map column) = listMin (df.map column)) (x : PFloat)
    (hx : x ∈ normalize_column_float df column ascending) :
    x = PFloat.nan ∧ PFloat.isFinite x = false := by
  simp only [normalize_column_float] at hx
  obtain ⟨v, hv, rfl⟩ := List.mem_map.mp hx
  have h1 : v = listMin (df.map column) :=
    le_antisymm (h ▸ le_listMax hv) (listMin_le hv)
  have h2 : PFloat.div (PFloat.fin (v - listMin (df.map column)))
      (PFloat.fin (listMax (df.map column) - listMin (df.map column))) =
      PFloat.nan := by
    simp [h1, h, PFloat.div]
  exact ⟨h2, by simp [h2, PFloat.isFinite]⟩

/-- C7 witness: on the single-row table every normalized value is NaN. -/
theorem normalize_column_degenerate_witness :
    PFloat.nan ∈
        normalize_column_float dfSingle (fun r => r.distribution_yield) true ∧
      PFloat.nan = PFloat.nan ∧ PFloat.isFinite PFloat.nan = false := by
  have hmem : PFloat.nan ∈
      normalize_column_float dfSingle (fun r => r.distribution_yield) true := by
    norm_num [normalize_column_float, dfSingle, rowA, listMin, listMax,
      PFloat.div]
  exact ⟨hmem, normalize_column_degenerate dfSingle
    (fun r => r.distribution_yield) true
    (by norm_num [dfSingle, rowA, listMin, listMax]) PFloat.nan hmem⟩

/-- C1: the composite score `select_stocks` attaches to every returned row is
exactly the weighted sum of its five attached sub-scores with the
caller-supplied weights — with no internal re-normalization of the weights,
even if they do not sum to 1. -/
theorem select_stocks_total_eq_weighted_sum (w : ScoringWeights)
    (df : List Row) (top_n : Nat) (p : Row × RowScores)
    (hp : p ∈ select_stocks w df top_n) :
    p.2.total_score =
      p.2.distribution_yield_score * w.distribution_yield +
        p.2.nav_ratio_score * w.nav_ratio +
        p.2.portfolio_quality_score * w.portfolio_quality +
        p.2.financial_health_score * w.financial_health +
        p.2.market_position_score * w.market_position := by
  obtain ⟨r, sc⟩ := p
  have h1 := mem_scored_of_mem_select hp
  have h2 : sc ∈ scoreTable w df := (List.of_mem_zip h1).2
  simpa [weighted_total] using scoreTable_total_eq h2

/-- C1 witness: instantiated on the example table with weights summing to 2,
showing nothing re-normalizes the weights. -/
theorem select_stocks_total_eq_weighted_sum_witness :
    (rowA, sA) ∈ select_stocks wDouble dfAB 5 ∧
      sA.total_score =
        sA.distribution_yield_score * wDouble.distribution_yield +
          sA.nav_ratio_score * wDouble.nav_ratio +
          sA.portfolio_quality_score * wDouble.portfolio_quality +
          sA.financial_health_score * wDouble.financial_health +
          sA.market_position_score * wDouble.market_position :=
  ⟨by rw [select_eval_wDouble_dfAB]; exact List.mem_cons_self _ _,
    select_stocks_total_eq_weighted_sum wDouble dfAB 5 (rowA, sA)
      (by rw [select_eval_wDouble_dfAB]; exact List.mem_cons_self _ _)⟩

/-- C5: `select_stocks` returns exactly `min top_n row_count` rows; in
particular when `top_n` exceeds the row count every row is returned (the
output rows are a permutation of the input) and no error is raised. -/
theorem select_stocks_length_spec (w : ScoringWeights) (df : List Row)
    (top_n : Nat) (h : 1 ≤ top_n) :
    (select_stocks w df top_n).length = min top_n df.length ∧
      (df.length ≤ top_n →
        ((select_stocks w df top_n).map Prod.fst).Perm df) := by
  have hzlen : (df.zip (scoreTable w df)).length = df.length := by
    rw [List.length_zip, scoreTable_length, min_self]
  refine ⟨length_select_stocks w df top_n, ?_⟩
  intro h2
  simp only [select_stocks]
  rw [List.take_of_length_le (by rw [length_sort_values_desc, hzlen]; exact h2)]
  have p1 : (sort_values_desc (df.zip (scoreTable w df))).Perm
      (df.zip (scoreTable w df)) :=
    ((List.reverse_perm _).trans (List.perm_insertionSort scoreLE _)).trans
      (List.reverse_perm _)
  have p2 := p1.map Prod.fst
  rwa [List.map_fst_zip df (scoreTable w df) (le_of_eq
    (scoreTable_length w df).symm)] at p2

/-- C5 witness: `top_n = 5` on the two-row example table returns
`min 5 2 = 2` rows. -/
theorem select_stocks_length_spec_witness :
    (select_stocks wDefault dfAB 5).length = min 5 dfAB.length :=
  (select_stocks_length_spec wDefault dfAB 5 (by norm_num)).1

/-- C6: the output of `select_stocks` is sorted by composite score
descending — every adjacent pair satisfies `score[i+1] ≤ score[i]`. -/
theorem select_stocks_sorted_descending (w : ScoringWeights) (df : List Row)
    (top_n : Nat) (i : Nat) (h : i + 1 < (select_stocks w df top_n).length) :
    ((select_stocks w df top_n).getD (i + 1) default).2.total_score ≤
      ((select_stocks w df top_n).getD i default).2.total_score := by
  have hsorted : (((df.zip (scoreTable w df)).reverse).insertionSort
      scoreLE).Sorted scoreLE := List.sorted_insertionSort scoreLE _
  have hrev : (sort_values_desc (df.zip (scoreTable w df))).Pairwise
      (fun p q => scoreLE q p) := by
    simp only [sort_values_desc]
    exact List.pairwise_reverse.mpr hsorted
  have htake : (select_stocks w df top_n).Pairwise (fun p q => scoreLE q p) := by
    simp only [select_stocks]
    exact hrev.sublist (List.take_sublist _ _)
  rw [List.pairwise_iff_getElem] at htake
  have h1 : i < (select_stocks w df top_n).length := Nat.lt_of_succ_lt h
  have h2 := htake i (i + 1) h1 h (Nat.lt_succ_self i)
  rw [getD_eq_getElem_of_lt _ i default h1,
    getD_eq_getElem_of_lt _ (i + 1) default h]
  exact h2

/-- C6 witness: on the example table the second returned row scores no more
than the first. -/
theorem select_stocks_sorted_descending_witness :
    ((select_stocks wDefault dfAB 5).getD 1 default).2.total_score ≤
      ((select_stocks wDefault dfAB 5).getD 0 default).2.total_score :=
  select_stocks_sorted_descending wDefault dfAB 5 0
    (by rw [length_select_stocks]; norm_num [dfAB])

theorem alloc_weights (s : PyState) (d : PDataFrame) :
    (s.alloc d).1.weights = s.weights := rfl

theorem alloc_snd (s : PyState) (d : PDataFrame) :
    (s.alloc d).2 = s.heap.length := rfl

theorem alloc_heap_length (s : PyState) (d : PDataFrame) :
    (s.alloc d).1.heap.length = s.heap.length + 1 := by
  simp [PyState.alloc]

theorem setCol_weights (s : PyState) (j : Nat) (nm : String) (v : List ℚ) :
    (s.setCol j nm v).weights = s.weights := rfl

theorem setCol_heap_length (s : PyState) (j : Nat) (nm : String)
    (v : List ℚ) : (s.setCol j nm v).heap.length = s.heap.length := by
  simp [PyState.setCol]

theorem alloc_getD (s : PyState) (d : PDataFrame) (i : Nat)
    (hi : i < s.heap.length) :
    (s.alloc d).1.heap.getD i default = s.heap.getD i default := by
  simp [PyState.alloc, List.getD_eq_getElem?_getD,
    List.getElem?_append_left hi]

theorem setCol_getD (s : PyState) (j : Nat) (nm : String) (v : List ℚ)
    (i : Nat) (hij : i ≠ j) :
    (s.setCol j nm v).heap.getD i default = s.heap.getD i default := by
  simp [PyState.setCol, List.getD_eq_getElem?_getD,
    List.getElem?_set_ne (Ne.symm hij)]

/-- C9: `select_stocks` mutates none of its inputs: the input DataFrame's heap
object is unchanged after the call, the stored weights are unchanged, and the
returned table is a new heap object distinct from the input. -/
theorem select_stocks_no_mutation (s : PyState) (dfId : Nat) (top_n : Nat)
    (h : dfId < s.heap.length) :
    (select_stocks_st s dfId top_n).1.heap.getD dfId default =
        s.heap.getD dfId default ∧
      (select_stocks_st s dfId top_n).1.weights = s.weights ∧
      (select_stocks_st s dfId top_n).2 ≠ dfId ∧
      (select_stocks_st s dfId top_n).2 <
        (select_stocks_st s dfId top_n).1.heap.length := by
  refine ⟨?_, ?_, ?_, ?_⟩
  · simp only [select_stocks_st]
    rw [alloc_getD, setCol_getD, setCol_getD, setCol_getD, setCol_getD,
      setCol_getD, setCol_getD, alloc_getD, setCol_getD, setCol_getD,
      setCol_getD, setCol_getD, setCol_getD, setCol_getD, alloc_getD]
    · exact h
    all_goals simp only [alloc_heap_length, setCol_heap_length, alloc_snd]
    all_goals omega
  · simp only [select_stocks_st, alloc_weights, setCol_weights]
  · simp only [select_stocks_st, alloc_snd, alloc_heap_length,
      setCol_heap_length]
    omega
  · simp only [select_stocks_st, alloc_snd, alloc_heap_length,
      setCol_heap_length]
    omega

/-- C9 witness: on a heap holding the example table at id 0, the call leaves
object 0 unchanged and returns a different object. -/
theorem select_stocks_no_mutation_witness :
    (select_stocks_st pyS0 0 5).1.heap.getD 0 default =
        pyS0.heap.getD 0 default ∧
      (select_stocks_st pyS0 0 5).2 ≠ 0 :=
  ⟨(select_stocks_no_mutation pyS0 0 5 (by norm_num [pyS0])).1,
    (select_stocks_no_mutation pyS0 0 5 (by norm_num [pyS0])).2.2.1⟩

end JReitFinder
